import Mathlib

/-!
Verification of the jiascheduler agent-bridge utility layer and the job CRUD
logic against their natural-language specification.

The development shallowly embeds the Rust sources:
  * src/automate/src/lib.rs — routing-key construction (get_endpoint),
    identifier generation (get_nanid), and the process-wide cells
    COMET_ADDR and LOCAL_IP;
  * src/openapi/src/logic/job.rs — JobLogic::query_job, JobLogic::delete_job
    and JobLogic::query_run_list, modelled as pure functions over an explicit
    in-memory database (lists of rows), with sea-orm query building mapped to
    list filtering, stable sorting and slicing.
-/

/-! ## Routing keys: get_endpoint (src/automate/src/lib.rs lines 31-39) -/

/-- Embedding of get_endpoint: renders the routing key for an agent instance.
Mirrors the Rust source: a non-empty namespace yields
"jiascheduler:ins:{namespace}:{ip}", an empty namespace yields
"jiascheduler:ins:{ip}". The Rust parameter named namespace is called ns here
because namespace is a Lean keyword. -/
def get_endpoint (ns ip : String) : String :=
  if ns ≠ "" then "jiascheduler:ins:" ++ ns ++ ":" ++ ip
  else "jiascheduler:ins:" ++ ip

/-! ## Identifier generation: get_nanid (src/automate/src/lib.rs lines 41-43) -/

/-- Embedding of the nanoid!(size) generator of the nanoid crate, with the
random source modelled as an oracle giving the character drawn at each
position: it produces exactly size characters. -/
def nanoid (size : Nat) (rand : Nat → Char) : String :=
  String.mk ((List.range size).map rand)

/-- Embedding of get_nanid: formats "{prefix}-{nanoid!(10)}". The random
generator is passed as the oracle rand. -/
def get_nanid (pre : String) (rand : Nat → Char) : String :=
  pre ++ "-" ++ nanoid 10 rand

/-! ## The COMET_ADDR cell (src/automate/src/lib.rs lines 24, 50-62)

The cell is modelled by its state, an Option String (None when never set).
set_comet_addr mirrors the source's two branches: if the OnceLock already
holds a value it is overwritten in place, otherwise the cell is initialised. -/

/-- Embedding of set_comet_addr: state transformer on the COMET_ADDR cell. -/
def set_comet_addr (st : Option String) (addr : String) : Option String :=
  match st with
  | some _ => some addr
  | none => some addr

/-- Embedding of get_comet_addr: reads the COMET_ADDR cell. -/
def get_comet_addr (st : Option String) : Option String :=
  st

/-! ## The LOCAL_IP cell (src/automate/src/lib.rs lines 22, 26-29)

IpAddr is modelled as a string rendering of the address. get_local_ip is a
state transformer on the LOCAL_IP OnceLock: get_or_init returns the stored
value when present and otherwise stores and returns the value the
local_ip() system call produces at that moment, modelled as an oracle. -/

/-- Model of std::net::IpAddr for the purposes of the LOCAL_IP cell. -/
abbrev IpAddr := String

/-- Embedding of get_local_ip: returns the cached address when the cell is
initialised, otherwise initialises it with the oracle value local_ip_now
(what local_ip() would return at this call). Returns the pair
(returned address, new cell state). -/
def get_local_ip (st : Option IpAddr) (local_ip_now : IpAddr) : IpAddr × Option IpAddr :=
  match st with
  | some v => (v, some v)
  | none => (local_ip_now, some local_ip_now)

/-- Runs a sequence of get_local_ip calls, one oracle value per call,
returning the list of addresses the calls observe. -/
def run_local_ip : List IpAddr → Option IpAddr → List IpAddr
  | [], _ => []
  | o :: rest, st =>
    let r := get_local_ip st o
    r.1 :: run_local_ip rest r.2

/-! ## Job CRUD logic (src/openapi/src/logic/job.rs)

The sea-orm query builders are embedded as pure functions over an explicit
in-memory database. A SELECT with filters, ORDER BY and pagination becomes:
filter the rows, stably merge-sort them by the ORDER BY keys (descending keys
compare reversed), drop page * page_size rows and take page_size rows
(sea-orm's fetch_page uses zero-based page numbers with OFFSET
page * page_size, LIMIT page_size). COUNT happens on the filtered rows before
ordering and pagination, exactly as the source counts the model before
applying order_by and paginate. -/

/-- Checks that pat is a leading segment of l (character lists). -/
def charsPre : List Char → List Char → Bool
  | [], _ => true
  | _ :: _, [] => false
  | a :: as, b :: bs => (a == b) && charsPre as bs

/-- Checks that pat occurs contiguously somewhere in l; embeds the SQL
LIKE-style Column::contains filter of sea-orm. -/
def charsSub (pat : List Char) : List Char → Bool
  | [] => pat == []
  | c :: rest => charsPre pat (c :: rest) || charsSub pat rest

/-- SQL LIKE-percent-pat-percent test on strings, as produced by
sea-orm's Column::contains. -/
def strContains (s pat : String) : Bool :=
  charsSub pat.data s.data

/-- Row of the job table (the columns job.rs reads). -/
structure JobRow where
  id : Nat
  eid : String
  name : String
  job_type : String
  created_user : String
  updated_time : String
  executor_id : Nat
deriving DecidableEq

/-- Row of the executor table (the columns query_job selects). -/
structure ExecutorRow where
  id : Nat
  name : String
  command : String
deriving DecidableEq

/-- Result row of query_job: a job row extended with the executor_name and
executor_command columns contributed by the LEFT JOIN on executor
(NULL, i.e. none, when no executor row matches). -/
structure JobRelatedExecutorModel where
  job : JobRow
  executor_name : Option String
  executor_command : Option String
deriving DecidableEq

/-- The LEFT JOIN of query_job: resolves the executor columns for one job row
by executor.id = job.executor_id (executor.id is the primary key, so at most
one row matches). -/
def joinExecutor (executors : List ExecutorRow) (j : JobRow) : JobRelatedExecutorModel :=
  match executors.find? (fun e => e.id == j.executor_id) with
  | some e => ⟨j, some e.name, some e.command⟩
  | none => ⟨j, none, none⟩

/-- The WHERE clause of query_job: conjunction of the four apply_if filters
(created_user equality, job_type equality, name contains, updated_time
strictly between the range bounds; each skipped when its argument is None). -/
def jobMatches (created_user job_type name : Option String)
    (updated_time_range : Option (String × String)) (r : JobRow) : Bool :=
  (match created_user with
   | some v => r.created_user == v
   | none => true) &&
  (match job_type with
   | some v => r.job_type == v
   | none => true) &&
  (match name with
   | some v => strContains r.name v
   | none => true) &&
  (match updated_time_range with
   | some v => decide (v.1 < r.updated_time) && decide (r.updated_time < v.2)
   | none => true)

/-- The ORDER BY chain of query_job, as a boolean precedes-or-ties relation
fed to a stable sort: ORDER BY (id = default_id) DESC, (eid = default_eid)
DESC, id DESC; the two Expr keys degenerate to the constant false (hence a
no-op for a stable sort) when their argument is None, matching apply_if
skipping the order_by_desc call. -/
def jobLe (default_id : Option Nat) (default_eid : Option String) (a b : JobRow) : Bool :=
  let k1 : JobRow → Bool := fun r =>
    match default_id with
    | some v => r.id == v
    | none => false
  let k2 : JobRow → Bool := fun r =>
    match default_eid with
    | some v => r.eid == v
    | none => false
  if k1 a == k1 b then
    if k2 a == k2 b then b.id ≤ a.id
    else k2 a
  else k1 a

/-- Stable insertion used by sortBy: a is placed before the first element it
precedes-or-ties, so elements equal under le keep their relative order. -/
def insertLe (le : α → α → Bool) (a : α) : List α → List α
  | [] => [a]
  | b :: bs => if le a b then a :: b :: bs else b :: insertLe le a bs

/-- Stable sort by a boolean precedes-or-ties relation; models a SQL ORDER BY
deterministically (rows tied on every key keep their relative order). -/
def sortBy (le : α → α → Bool) : List α → List α
  | [] => []
  | x :: xs => insertLe le x (sortBy le xs)

/-- Zero-based pagination of sea-orm's paginate(page_size).fetch_page(page). -/
def fetch_page (l : List α) (page page_size : Nat) : List α :=
  (l.drop (page * page_size)).take page_size

/-- Embedding of JobLogic::query_job: joins job with executor, applies the
optional filters, counts the filtered rows as total, orders by
(id = default_id) DESC, (eid = default_eid) DESC, id DESC, and returns the
requested page together with total. -/
def query_job (jobs : List JobRow) (executors : List ExecutorRow)
    (created_user job_type name : Option String)
    (updated_time_range : Option (String × String))
    (default_id : Option Nat) (default_eid : Option String)
    (page page_size : Nat) : List JobRelatedExecutorModel × Nat :=
  let filtered := jobs.filter (jobMatches created_user job_type name updated_time_range)
  let total := filtered.length
  let sorted := sortBy (jobLe default_id default_eid) filtered
  ((fetch_page sorted page page_size).map (joinExecutor executors), total)

/-- Row of the job_exec_history table (the column delete_job reads). -/
structure JobExecHistoryRow where
  id : Nat
  eid : String
deriving DecidableEq

/-- Embedding of JobLogic::delete_job. Returns the job table after the call
together with the call's result. When some job_exec_history row carries the
eid, the call bails with the error string and the job table is untouched;
otherwise the rows with that eid are deleted and rows_affected is returned.
Modelled from the spec: the entity schema (primary keys) is not in the
excerpt; Job::delete with only eid set is modelled as deleting the job rows
whose eid equals the argument, the reading the surrounding code relies on. -/
def delete_job (jobs : List JobRow) (history : List JobExecHistoryRow)
    (eid : String) : List JobRow × Except String Nat :=
  match history.find? (fun h => h.eid == eid) with
  | some _ => (jobs, Except.error "forbidden to delete the executed jobs")
  | none =>
    (jobs.filter (fun j => j.eid != eid), Except.ok (jobs.countP (fun j => j.eid == eid)))

/-! ## query_run_list (src/openapi/src/logic/job.rs lines 168-224)

This query SELECTs from job_running_status LEFT JOINed with
job_schedule_history; those are the only two tables in its FROM clause.
Its WHERE clause, however, is built from column references that name their
table explicitly (sea-orm Column values render as table.column), and the
upper bound of the updated_time_range filter is written against
job::Column::UpdatedTime — the job table, which this query does not join.
To keep that faithfully, the embedding builds the WHERE clause as a list of
conditions over explicit column references and checks, as the database's
prepare step does, that every referenced column belongs to a table in the
query's FROM clause; a reference to an out-of-scope table makes the whole
query fail with an unknown-column error, independent of the data. -/

/-- Row of the job_running_status table (the columns job.rs reads). -/
structure JobRunningStatusRow where
  id : Nat
  schedule_id : String
  schedule_type : String
  job_type : String
  updated_user : String
  bind_ip : String
  updated_time : String
deriving DecidableEq

/-- Row of the job_schedule_history table (the columns job.rs reads). -/
structure JobScheduleHistoryRow where
  schedule_id : String
  name : String
  snapshot_data : String
deriving DecidableEq

/-- Result row of query_run_list: a job_running_status row extended with the
schedule_name and schedule_snapshot_data columns from the LEFT JOIN. -/
structure RunStatusRelatedScheduleJobModel where
  status : JobRunningStatusRow
  schedule_name : Option String
  schedule_snapshot_data : Option String
deriving DecidableEq

/-- The tables of the job schema that column references may name. -/
inductive DbTable
  | job
  | jobRunningStatus
  | jobScheduleHistory
deriving DecidableEq

/-- A column reference as sea-orm renders it: table plus column name. -/
structure ColRef where
  table : DbTable
  col : String
deriving DecidableEq

/-- The column references query_run_list's WHERE clause uses, written exactly
as the source names them. -/
def jrsScheduleType : ColRef := ⟨DbTable.jobRunningStatus, "schedule_type"⟩

def jrsJobType : ColRef := ⟨DbTable.jobRunningStatus, "job_type"⟩

def jrsUpdatedUser : ColRef := ⟨DbTable.jobRunningStatus, "updated_user"⟩

def jrsBindIp : ColRef := ⟨DbTable.jobRunningStatus, "bind_ip"⟩

def jrsUpdatedTime : ColRef := ⟨DbTable.jobRunningStatus, "updated_time"⟩

def jshName : ColRef := ⟨DbTable.jobScheduleHistory, "name"⟩

def jobUpdatedTime : ColRef := ⟨DbTable.job, "updated_time"⟩

/-- A WHERE-clause condition of the query builder. -/
inductive Cond
  | eq (c : ColRef) (v : String)
  | contains (c : ColRef) (v : String)
  | gt (c : ColRef) (v : String)
  | lt (c : ColRef) (v : String)
  | and (a b : Cond)

/-- The column references a condition mentions. -/
def Cond.cols : Cond → List ColRef
  | .eq c _ => [c]
  | .contains c _ => [c]
  | .gt c _ => [c]
  | .lt c _ => [c]
  | .and a b => a.cols ++ b.cols

/-- The FROM-clause scope of query_run_list: job_running_status joined with
job_schedule_history. -/
def runListScope : List DbTable :=
  [DbTable.jobRunningStatus, DbTable.jobScheduleHistory]

/-- The joined row the conditions of query_run_list are evaluated on
(job_schedule_history side is None when the LEFT JOIN finds no match). -/
structure RunListJoinedRow where
  jrs : JobRunningStatusRow
  jsh : Option JobScheduleHistoryRow
deriving DecidableEq

/-- Reads a column of the joined row; None both for a NULL (missing LEFT
JOIN partner) and for a column the row does not carry. Only called on
in-scope references. -/
def readCol (r : RunListJoinedRow) (c : ColRef) : Option String :=
  match c.table with
  | DbTable.jobRunningStatus =>
    if c.col = "schedule_type" then some r.jrs.schedule_type
    else if c.col = "job_type" then some r.jrs.job_type
    else if c.col = "updated_user" then some r.jrs.updated_user
    else if c.col = "bind_ip" then some r.jrs.bind_ip
    else if c.col = "updated_time" then some r.jrs.updated_time
    else none
  | DbTable.jobScheduleHistory =>
    match r.jsh with
    | some h => if c.col = "name" then some h.name else none
    | none => none
  | DbTable.job => none

/-- Evaluates a condition on a joined row; a comparison against NULL is not
satisfied, as in SQL three-valued logic a WHERE clause keeps only rows the
predicate evaluates to TRUE on. -/
def Cond.eval (r : RunListJoinedRow) : Cond → Bool
  | .eq c v =>
    match readCol r c with
    | some x => x == v
    | none => false
  | .contains c v =>
    match readCol r c with
    | some x => strContains x v
    | none => false
  | .gt c v =>
    match readCol r c with
    | some x => decide (v < x)
    | none => false
  | .lt c v =>
    match readCol r c with
    | some x => decide (x < v)
    | none => false
  | .and a b => a.eval r && b.eval r

/-- The WHERE clause query_run_list builds, one condition per apply_if in
source order; the updated_time_range condition is
job_running_status.updated_time > lo AND job.updated_time < hi, exactly as
lines 207-213 of job.rs write it (the upper bound names the job table). -/
def runListConds (created_user bind_ip schedule_name schedule_type job_type : Option String)
    (updated_time_range : Option (String × String)) : List Cond :=
  (match schedule_type with
   | some v => [Cond.eq jrsScheduleType v]
   | none => []) ++
  (match job_type with
   | some v => [Cond.eq jrsJobType v]
   | none => []) ++
  (match created_user with
   | some v => [Cond.eq jrsUpdatedUser v]
   | none => []) ++
  (match bind_ip with
   | some v => [Cond.contains jrsBindIp v]
   | none => []) ++
  (match schedule_name with
   | some v => [Cond.contains jshName v]
   | none => []) ++
  (match updated_time_range with
   | some v => [Cond.and (Cond.gt jrsUpdatedTime v.1) (Cond.lt jobUpdatedTime v.2)]
   | none => [])

/-- The LEFT JOIN of query_run_list: job_schedule_history.schedule_id =
job_running_status.schedule_id (at most one match per schedule_id). -/
def joinSchedule (histories : List JobScheduleHistoryRow)
    (s : JobRunningStatusRow) : RunListJoinedRow :=
  ⟨s, histories.find? (fun h => h.schedule_id == s.schedule_id)⟩

/-- ORDER BY updated_time DESC of query_run_list, as a boolean
precedes-or-ties relation for a stable sort. -/
def runListLe (a b : RunListJoinedRow) : Bool :=
  decide (b.jrs.updated_time < a.jrs.updated_time) || b.jrs.updated_time == a.jrs.updated_time

/-- Embedding of JobLogic::query_run_list. The WHERE clause is checked
against the FROM scope first: a condition referencing a table the query does
not include (as the updated_time_range upper bound does) makes the database
reject the statement with an unknown-column error before any row is
considered. Otherwise the rows are filtered, counted, ordered by
updated_time DESC and paginated. -/
def query_run_list (statuses : List JobRunningStatusRow)
    (histories : List JobScheduleHistoryRow)
    (created_user bind_ip schedule_name schedule_type job_type : Option String)
    (updated_time_range : Option (String × String))
    (page page_size : Nat) :
    Except String (List RunStatusRelatedScheduleJobModel × Nat) :=
  let conds := runListConds created_user bind_ip schedule_name schedule_type job_type
    updated_time_range
  if conds.all (fun c => c.cols.all (fun ref => runListScope.contains ref.table)) then
    let joined := statuses.map (joinSchedule histories)
    let filtered := joined.filter (fun r => conds.all (fun c => c.eval r))
    let total := filtered.length
    let sorted := sortBy runListLe filtered
    Except.ok ((fetch_page sorted page page_size).map
      (fun r => ⟨r.jrs, r.jsh.map (fun h => h.name), r.jsh.map (fun h => h.snapshot_data)⟩),
      total)
  else
    Except.error "unknown column"

/-! ## PendingRequest correlation bookkeeping

The bridge/comet modules (src/automate/src/bridge, src/automate/src/comet)
are not part of the excerpt, so the pending-request table is modelled from
the specification. -/

/-- Modelled from the spec: how a PendingRequest was resolved — by a matching
response envelope or by deadline expiry (timeout error). The bridge and
comet sources are not in the excerpt. -/
inductive Resolution
  | response
  | timeoutErr
deriving DecidableEq

/-- Modelled from the spec: the origin-side bookkeeping table. pending maps
correlation identifier to deadline for the requests still awaiting an
answer; resolved logs, most recent first, each request that has been
completed and how. -/
structure PendingState where
  pending : List (Nat × Nat)
  resolved : List (Nat × Resolution)
deriving DecidableEq

/-- Modelled from the spec: the events that drive the pending-request table.
create registers a request envelope being sent with its deadline, response
is an inbound response envelope carrying a correlation identifier, and tick
is the passage of time to the instant now (deadline expiry). -/
inductive PrEvent
  | create (id deadline : Nat)
  | response (id : Nat)
  | tick (now : Nat)
deriving DecidableEq

/-- Modelled from the spec: one transition of the pending-request table.
A create inserts the correlation entry. A response resolves the matching
pending entry and removes it; a response whose identifier matches no pending
entry (duplicate or late) is discarded without effect. A tick resolves every
pending entry whose deadline has passed with a timeout error and removes it. -/
def PendingState.step (s : PendingState) : PrEvent → PendingState
  | .create id d => ⟨(id, d) :: s.pending, s.resolved⟩
  | .response id =>
    if s.pending.any (fun p => p.1 == id) then
      ⟨s.pending.filter (fun p => p.1 != id),
       (id, Resolution.response) :: s.resolved⟩
    else s
  | .tick now =>
    ⟨s.pending.filter (fun p => decide (now < p.2)),
     (s.pending.filter (fun p => decide (p.2 ≤ now))).map
       (fun p => (p.1, Resolution.timeoutErr)) ++ s.resolved⟩

/-- Runs the pending-request table over a sequence of events. -/
def runEvents (s : PendingState) (evts : List PrEvent) : PendingState :=
  evts.foldl PendingState.step s

/-- The empty pending-request table. -/
def initPending : PendingState := ⟨[], []⟩

/-- The pending entries carrying a given correlation identifier. -/
def pendingOf (id : Nat) (s : PendingState) : List (Nat × Nat) :=
  s.pending.filter (fun p => p.1 == id)

/-- How many resolutions the log records for a given correlation
identifier. -/
def resolvedCount (id : Nat) (s : PendingState) : Nat :=
  s.resolved.countP (fun p => p.1 == id)

/-- Whether an event creates a request with the given correlation
identifier. -/
def createsId (id : Nat) : PrEvent → Bool
  | .create i _ => i == id
  | _ => false

/-- Whether an event forces the request (id, d) to resolve: a response
carrying the identifier, or a tick at or past the deadline. -/
def firesId (id d : Nat) : PrEvent → Bool
  | .create _ _ => false
  | .response i => i == id
  | .tick now => decide (d ≤ now)

/-! ## Concrete rows used by counterexamples and witnesses -/

/-- Concrete job row with id 1, used by the query_job counterexample. -/
def cexJobRow1 : JobRow :=
  ⟨1, "e1", "job one", "default", "alice", "2024-01-01 00:00:00", 1⟩

/-- Concrete job row with id 2, used by the query_job counterexample. -/
def cexJobRow2 : JobRow :=
  ⟨2, "e2", "job two", "default", "alice", "2024-01-02 00:00:00", 1⟩

/-- Concrete job row used by the delete_job witness. -/
def witJobRow : JobRow :=
  ⟨3, "e3", "job three", "default", "bob", "2024-02-01 00:00:00", 2⟩

/-- Concrete execution-history row used by the delete_job witness. -/
def witHistRow : JobExecHistoryRow := ⟨1, "e3"⟩

/-! ## Helper lemmas -/

/-- Branch lemma: get_endpoint with a non-empty namespace. -/
theorem get_endpoint_of_ne (ns ip : String) (h : ns ≠ "") :
    get_endpoint ns ip = "jiascheduler:ins:" ++ ns ++ ":" ++ ip :=
  if_pos h

/-- Branch lemma: get_endpoint with the empty namespace. -/
theorem get_endpoint_of_empty (ip : String) :
    get_endpoint "" ip = "jiascheduler:ins:" ++ ip :=
  if_neg (fun h => h rfl)

/-- Splitting at a separator character is unambiguous when neither prefix part
contains the separator. -/
theorem colon_split {b d : List Char} :
    ∀ {a c : List Char}, ':' ∉ a → ':' ∉ c →
      a ++ ':' :: b = c ++ ':' :: d → a = c ∧ b = d := by
  intro a
  induction a with
  | nil =>
    intro c _ hc h
    cases c with
    | nil => simpa using h
    | cons y ys =>
      simp only [List.nil_append, List.cons_append, List.cons.injEq] at h
      cases h.1
      exact absurd (List.mem_cons_self _ _) hc
  | cons x xs ih =>
    intro c ha hc h
    cases c with
    | nil =>
      simp only [List.cons_append, List.nil_append, List.cons.injEq] at h
      cases h.1
      exact absurd (List.mem_cons_self _ _) ha
    | cons y ys =>
      simp only [List.cons_append, List.cons.injEq] at h
      have hxs : ':' ∉ xs := fun hm => ha (List.mem_cons_of_mem _ hm)
      have hys : ':' ∉ ys := fun hm => hc (List.mem_cons_of_mem _ hm)
      have hrec := ih hxs hys h.2
      exact ⟨by rw [h.1, hrec.1], hrec.2⟩

/-- Writing the COMET_ADDR cell always leaves the argument in the cell,
whichever branch of the source runs. -/
theorem set_comet_addr_eq (st : Option String) (addr : String) :
    set_comet_addr st addr = some addr := by
  cases st <;> rfl

/-- Folding set_comet_addr over a call sequence ends in the last written
value, or in the starting state when there is no call. -/
theorem foldl_set_comet_addr (calls : List String) :
    ∀ st : Option String,
      List.foldl set_comet_addr st calls = calls.getLast?.or st := by
  induction calls with
  | nil => intro st; rfl
  | cons c cs ih =>
    intro st
    cases cs with
    | nil =>
      simp only [List.foldl_cons, List.foldl_nil, set_comet_addr_eq]
      rfl
    | cons d ds =>
      rw [List.foldl_cons, ih, set_comet_addr_eq,
        List.getLast?_eq_getLast (d :: ds) (by simp),
        List.getLast?_cons_cons,
        List.getLast?_eq_getLast (d :: ds) (by simp)]
      rfl

/-- Every get_local_ip call on an initialised cell returns the cached value
and leaves the cell untouched. -/
theorem run_local_ip_some (rest : List IpAddr) :
    ∀ v : IpAddr, run_local_ip rest (some v) = List.replicate rest.length v := by
  induction rest with
  | nil => intro v; rfl
  | cons o os ih =>
    intro v
    simp only [run_local_ip, get_local_ip, ih, List.length_cons, List.replicate]

/-! ## Claims about get_endpoint, get_nanid and the singleton cells -/

/-- C1: get_endpoint returns exactly "jiascheduler:ins:" ++ namespace ++ ":"
++ ip when the namespace is non-empty and exactly "jiascheduler:ins:" ++ ip
when it is empty, and it is pure: two evaluations on the same inputs give the
same string. -/
theorem get_endpoint_format (ns ip : String) :
    (ns ≠ "" → get_endpoint ns ip = "jiascheduler:ins:" ++ ns ++ ":" ++ ip) ∧
    (ns = "" → get_endpoint ns ip = "jiascheduler:ins:" ++ ip) ∧
    get_endpoint ns ip = get_endpoint ns ip :=
  ⟨fun h => get_endpoint_of_ne ns ip h,
   fun h => h ▸ get_endpoint_of_empty ip,
   rfl⟩

/-- Witness for C1 at the spec's own example inputs. -/
theorem get_endpoint_format_witness :
    ("tenantA" : String) ≠ "" ∧
    get_endpoint "tenantA" "10.0.0.1" = "jiascheduler:ins:" ++ "tenantA" ++ ":" ++ "10.0.0.1" ∧
    get_endpoint "" "10.0.0.1" = "jiascheduler:ins:" ++ "10.0.0.1" :=
  ⟨by decide,
   (get_endpoint_format "tenantA" "10.0.0.1").1 (by decide),
   (get_endpoint_format "" "10.0.0.1").2.1 rfl⟩

/-- C2, counterexample: get_endpoint is not injective over all distinct
input pairs; a colon inside the inputs makes distinct pairs collide. -/
theorem get_endpoint_not_injective_cex :
    get_endpoint "a" "b" = get_endpoint "" "a:b" ∧
    (("a", "b") : String × String) ≠ ("", "a:b") := by
  constructor
  · decide
  · decide

/-- C2, amended: get_endpoint is injective over distinct pairs whose
namespace and ip contain no colon character (the separator the rendered key
uses). -/
theorem get_endpoint_injective_colonFree (n1 i1 n2 i2 : String)
    (hn1 : ':' ∉ n1.data) (hi1 : ':' ∉ i1.data)
    (hn2 : ':' ∉ n2.data) (hi2 : ':' ∉ i2.data)
    (hne : (n1, i1) ≠ (n2, i2)) :
    get_endpoint n1 i1 ≠ get_endpoint n2 i2 := by
  intro heq
  apply hne
  rcases eq_or_ne n1 "" with h1 | h1 <;> rcases eq_or_ne n2 "" with h2 | h2
  · subst h1; subst h2
    rw [get_endpoint_of_empty, get_endpoint_of_empty] at heq
    have hd := congrArg String.data heq
    simp only [String.data_append] at hd
    exact Prod.ext rfl (String.ext (List.append_cancel_left hd))
  · subst h1
    rw [get_endpoint_of_empty, get_endpoint_of_ne n2 i2 h2] at heq
    have hd := congrArg String.data heq
    simp only [String.data_append, List.append_assoc] at hd
    have hd2 := List.append_cancel_left hd
    have : ':' ∈ i1.data := by
      rw [hd2]
      exact List.mem_append.mpr (Or.inr (by simp))
    exact absurd this hi1
  · subst h2
    rw [get_endpoint_of_empty, get_endpoint_of_ne n1 i1 h1] at heq
    have hd := congrArg String.data heq
    simp only [String.data_append, List.append_assoc] at hd
    have hd2 := List.append_cancel_left hd
    have : ':' ∈ i2.data := by
      rw [← hd2]
      exact List.mem_append.mpr (Or.inr (by simp))
    exact absurd this hi2
  · rw [get_endpoint_of_ne n1 i1 h1, get_endpoint_of_ne n2 i2 h2] at heq
    have hd := congrArg String.data heq
    simp only [String.data_append, List.append_assoc] at hd
    have hd2 := List.append_cancel_left hd
    simp only [String.data] at hd2
    have hsplit := colon_split hn1 hn2 (by simpa using hd2)
    exact Prod.ext (String.ext hsplit.1) (String.ext hsplit.2)

/-- Witness for C2 on concrete colon-free distinct pairs. -/
theorem get_endpoint_injective_colonFree_witness :
    (':' ∉ ("tenantA" : String).data ∧ ':' ∉ ("10.0.0.1" : String).data ∧
     ':' ∉ ("tenantB" : String).data ∧ ':' ∉ ("10.0.0.2" : String).data ∧
     (("tenantA", "10.0.0.1") : String × String) ≠ ("tenantB", "10.0.0.2")) ∧
    get_endpoint "tenantA" "10.0.0.1" ≠ get_endpoint "tenantB" "10.0.0.2" :=
  ⟨⟨by decide, by decide, by decide, by decide, by decide⟩,
   get_endpoint_injective_colonFree "tenantA" "10.0.0.1" "tenantB" "10.0.0.2"
     (by decide) (by decide) (by decide) (by decide) (by decide)⟩

/-- C3, counterexample: a call with an empty ip is not rejected; it returns
an ordinary routing-key string for every namespace shape. -/
theorem get_endpoint_empty_ip_cex :
    get_endpoint "tenantA" "" = "jiascheduler:ins:tenantA:" ∧
    get_endpoint "" "" = "jiascheduler:ins:" := by
  constructor
  · decide
  · decide

/-- C3, amended: get_endpoint performs no input validation at all; a call
with an empty ip returns the normal rendered key with an empty ip segment,
and the function has no failure mode. -/
theorem get_endpoint_empty_ip_total (ns : String) :
    (ns ≠ "" → get_endpoint ns "" = "jiascheduler:ins:" ++ ns ++ ":") ∧
    (ns = "" → get_endpoint ns "" = "jiascheduler:ins:") := by
  constructor
  · intro h
    rw [get_endpoint_of_ne ns "" h, String.append_empty]
  · intro h
    subst h
    rw [get_endpoint_of_empty, String.append_empty]

/-- Witness for C3 at concrete namespaces of both shapes. -/
theorem get_endpoint_empty_ip_total_witness :
    ("tenantA" : String) ≠ "" ∧
    get_endpoint "tenantA" "" = "jiascheduler:ins:" ++ "tenantA" ++ ":" ∧
    get_endpoint "" "" = "jiascheduler:ins:" :=
  ⟨by decide,
   (get_endpoint_empty_ip_total "tenantA").1 (by decide),
   (get_endpoint_empty_ip_total "").2 rfl⟩

/-- C6: get_nanid returns prefix ++ "-" ++ suffix where the suffix drawn
from the random oracle has exactly 10 characters. -/
theorem get_nanid_shape (pre : String) (rand : Nat → Char) :
    ∃ suffix : String, get_nanid pre rand = pre ++ "-" ++ suffix ∧
      suffix.length = 10 :=
  ⟨nanoid 10 rand, rfl, by simp [nanoid]⟩

/-- C9: the COMET_ADDR cell is a last-write-wins register: reading after any
sequence of set_comet_addr calls yields the most recent argument, and None
when no call was made. -/
theorem comet_addr_last_write_wins (calls : List String) :
    get_comet_addr (List.foldl set_comet_addr none calls) = calls.getLast? := by
  rw [get_comet_addr, foldl_set_comet_addr, Option.or_none]

/-- C10: the LOCAL_IP cell is initialised by the first get_local_ip call and
never mutated afterwards: every call in a run observes the address the first
call obtained. -/
theorem get_local_ip_stable (o : IpAddr) (rest : List IpAddr) :
    run_local_ip (o :: rest) none = List.replicate (rest.length + 1) o := by
  simp only [run_local_ip, get_local_ip, run_local_ip_some, List.replicate]

/-! ## Sorting lemmas -/

/-- Inserting an element permutes to consing it. -/
theorem insertLe_perm (le : α → α → Bool) (a : α) :
    ∀ l : List α, (insertLe le a l).Perm (a :: l) := by
  intro l
  induction l with
  | nil => exact List.Perm.refl _
  | cons b bs ih =>
    simp only [insertLe]
    by_cases h : le a b = true
    · rw [if_pos h]
    · rw [if_neg h]
      exact (ih.cons b).trans (List.Perm.swap a b bs)

/-- sortBy permutes its input. -/
theorem sortBy_perm (le : α → α → Bool) : ∀ l : List α, (sortBy le l).Perm l := by
  intro l
  induction l with
  | nil => exact List.Perm.refl _
  | cons x xs ih => exact (insertLe_perm le x (sortBy le xs)).trans (ih.cons x)

/-- Insertion preserves sortedness for a transitive, total boolean
relation. -/
theorem pairwise_insertLe (le : α → α → Bool)
    (htrans : ∀ a b c, le a b = true → le b c = true → le a c = true)
    (htot : ∀ a b, le a b = true ∨ le b a = true) (a : α) :
    ∀ l : List α, List.Pairwise (fun x y => le x y = true) l →
      List.Pairwise (fun x y => le x y = true) (insertLe le a l) := by
  intro l
  induction l with
  | nil => intro _; simp [insertLe]
  | cons b bs ih =>
    intro hp
    rw [List.pairwise_cons] at hp
    simp only [insertLe]
    by_cases h : le a b = true
    · rw [if_pos h, List.pairwise_cons]
      refine ⟨fun x hx => ?_, List.pairwise_cons.mpr hp⟩
      rcases List.mem_cons.mp hx with hxb | hxbs
      · rw [hxb]; exact h
      · exact htrans a b x h (hp.1 x hxbs)
    · rw [if_neg h, List.pairwise_cons]
      refine ⟨fun x hx => ?_, ih hp.2⟩
      rcases List.mem_cons.mp ((insertLe_perm le a bs).mem_iff.mp hx) with hxa | hxbs
      · rw [hxa]; exact (htot a b).resolve_left h
      · exact hp.1 x hxbs

/-- sortBy sorts, for a transitive, total boolean relation. -/
theorem pairwise_sortBy (le : α → α → Bool)
    (htrans : ∀ a b c, le a b = true → le b c = true → le a c = true)
    (htot : ∀ a b, le a b = true ∨ le b a = true) :
    ∀ l : List α, List.Pairwise (fun x y => le x y = true) (sortBy le l) := by
  intro l
  induction l with
  | nil => exact List.Pairwise.nil
  | cons x xs ih => exact pairwise_insertLe le htrans htot x _ ih

/-- With both default keys absent the ORDER BY chain of query_job
degenerates to descending id. -/
theorem jobLe_none_eq (a b : JobRow) :
    jobLe none none a b = decide (b.id ≤ a.id) := rfl

/-- Transitivity of the degenerate query_job order. -/
theorem jobLe_none_trans :
    ∀ a b c : JobRow, jobLe none none a b = true → jobLe none none b c = true →
      jobLe none none a c = true := by
  intro a b c h1 h2
  simp only [jobLe_none_eq, decide_eq_true_eq] at h1 h2 ⊢
  omega

/-- Totality of the degenerate query_job order. -/
theorem jobLe_none_total :
    ∀ a b : JobRow, jobLe none none a b = true ∨ jobLe none none b a = true := by
  intro a b
  simp only [jobLe_none_eq, decide_eq_true_eq]
  omega

/-- Transitivity of a three-level lexicographic comparison with two
descending boolean keys above a descending numeric key. -/
theorem lex3_trans (x1 y1 z1 x2 y2 z2 : Bool) (xa ya za : Nat)
    (h1 : (if x1 == y1 then (if x2 == y2 then decide (ya ≤ xa) else x2) else x1) = true)
    (h2 : (if y1 == z1 then (if y2 == z2 then decide (za ≤ ya) else y2) else y1) = true) :
    (if x1 == z1 then (if x2 == z2 then decide (za ≤ xa) else x2) else x1) = true := by
  cases x1 <;> cases y1 <;> cases z1 <;> cases x2 <;> cases y2 <;> cases z2 <;>
    simp_all <;> omega

/-- Totality of the same three-level lexicographic comparison. -/
theorem lex3_total (x1 y1 x2 y2 : Bool) (xa ya : Nat) :
    (if x1 == y1 then (if x2 == y2 then decide (ya ≤ xa) else x2) else x1) = true ∨
    (if y1 == x1 then (if y2 == x2 then decide (xa ≤ ya) else y2) else y1) = true := by
  cases x1 <;> cases y1 <;> cases x2 <;> cases y2 <;> simp_all <;> omega

/-- Transitivity of the full ORDER BY chain of query_job, for arbitrary
default_id and default_eid. -/
theorem jobLe_trans (default_id : Option Nat) (default_eid : Option String) :
    ∀ a b c : JobRow, jobLe default_id default_eid a b = true →
      jobLe default_id default_eid b c = true →
      jobLe default_id default_eid a c = true := by
  intro a b c h1 h2
  simp only [jobLe] at h1 h2 ⊢
  exact lex3_trans _ _ _ _ _ _ _ _ _ h1 h2

/-- Totality of the full ORDER BY chain of query_job, for arbitrary
default_id and default_eid. -/
theorem jobLe_total (default_id : Option Nat) (default_eid : Option String) :
    ∀ a b : JobRow, jobLe default_id default_eid a b = true ∨
      jobLe default_id default_eid b a = true := by
  intro a b
  simp only [jobLe]
  exact lex3_total _ _ _ _ _ _

/-- The LEFT JOIN only decorates a job row; it never changes it. -/
theorem joinExecutor_job (ex : List ExecutorRow) (j : JobRow) :
    (joinExecutor ex j).job = j := by
  rcases hfind : ex.find? (fun e => e.id == j.executor_id) with _ | e <;>
    simp [joinExecutor, hfind]

/-! ## Claims about query_job, delete_job and query_run_list -/

/-- C7, counterexample: with default_id given, the returned page is not in
descending id order — the row matching default_id is hoisted to the front
even when a larger id exists. -/
theorem query_job_default_id_order_cex :
    ((query_job [cexJobRow1, cexJobRow2] [] none none none none
        (some 1) none 0 10).1.map (fun m => m.job.id)) = [1, 2] ∧
    (1 : Nat) < 2 := by
  constructor
  · rfl
  · decide

/-- C7, amended: for every filter combination, every default_id, default_eid,
page and page_size, query_job returns total equal to the number of matching
rows — independent of page, page_size, default_id and default_eid — and a
page of at most page_size rows; the page is the requested slice of the
matching rows ordered by (id = default_id) DESC, (eid = default_eid) DESC,
id DESC, which with both defaults absent is exactly descending id order. -/
theorem query_job_pagination_correct (jobs : List JobRow)
    (executors : List ExecutorRow)
    (created_user job_type name : Option String)
    (updated_time_range : Option (String × String))
    (default_id : Option Nat) (default_eid : Option String)
    (page page_size : Nat) :
    (query_job jobs executors created_user job_type name updated_time_range
        default_id default_eid page page_size).2 =
      (jobs.filter (jobMatches created_user job_type name updated_time_range)).length ∧
    (∀ (did2 : Option Nat) (deid2 : Option String) (page2 page_size2 : Nat),
      (query_job jobs executors created_user job_type name updated_time_range
          did2 deid2 page2 page_size2).2 =
        (query_job jobs executors created_user job_type name updated_time_range
            default_id default_eid page page_size).2) ∧
    (query_job jobs executors created_user job_type name updated_time_range
        default_id default_eid page page_size).1.length ≤ page_size ∧
    List.Pairwise (fun a b => jobLe default_id default_eid a.job b.job = true)
      (query_job jobs executors created_user job_type name updated_time_range
        default_id default_eid page page_size).1 ∧
    (∃ s : List JobRow,
      (jobs.filter (jobMatches created_user job_type name updated_time_range)).Perm s ∧
      List.Pairwise (fun a b => jobLe default_id default_eid a b = true) s ∧
      (query_job jobs executors created_user job_type name updated_time_range
          default_id default_eid page page_size).1 =
        (fetch_page s page page_size).map (joinExecutor executors)) ∧
    List.Pairwise (fun a b => b.job.id ≤ a.job.id)
      (query_job jobs executors created_user job_type name updated_time_range
        none none page page_size).1 ∧
    ∃ s : List JobRow,
      (jobs.filter (jobMatches created_user job_type name updated_time_range)).Perm s ∧
      List.Pairwise (fun a b => b.id ≤ a.id) s ∧
      (query_job jobs executors created_user job_type name updated_time_range
          none none page page_size).1 =
        (fetch_page s page page_size).map (joinExecutor executors) := by
  have hsg : List.Pairwise (fun x y : JobRow => jobLe default_id default_eid x y = true)
      (sortBy (jobLe default_id default_eid)
        (jobs.filter (jobMatches created_user job_type name updated_time_range))) :=
    pairwise_sortBy _ (jobLe_trans default_id default_eid)
      (jobLe_total default_id default_eid) _
  have hs : List.Pairwise (fun x y : JobRow => jobLe none none x y = true)
      (sortBy (jobLe none none)
        (jobs.filter (jobMatches created_user job_type name updated_time_range))) :=
    pairwise_sortBy _ jobLe_none_trans jobLe_none_total _
  have hs2 : List.Pairwise (fun a b : JobRow => b.id ≤ a.id)
      (sortBy (jobLe none none)
        (jobs.filter (jobMatches created_user job_type name updated_time_range))) := by
    refine hs.imp ?_
    intro a b h
    rw [jobLe_none_eq] at h
    exact of_decide_eq_true h
  refine ⟨rfl, fun _ _ _ _ => rfl, ?_, ?_,
    ⟨sortBy (jobLe default_id default_eid)
      (jobs.filter (jobMatches created_user job_type name updated_time_range)),
      (sortBy_perm _ _).symm, hsg, rfl⟩, ?_,
    ⟨sortBy (jobLe none none)
      (jobs.filter (jobMatches created_user job_type name updated_time_range)),
      (sortBy_perm _ _).symm, hs2, rfl⟩⟩
  · simp only [query_job, fetch_page, List.length_map, List.length_take]
    exact Nat.min_le_left _ _
  · have hsub : List.Sublist
        (fetch_page
          (sortBy (jobLe default_id default_eid)
            (jobs.filter (jobMatches created_user job_type name updated_time_range)))
          page page_size)
        (sortBy (jobLe default_id default_eid)
          (jobs.filter (jobMatches created_user job_type name updated_time_range))) :=
      (List.take_sublist _ _).trans (List.drop_sublist _ _)
    exact (hsg.sublist hsub).map _
      (fun a b h => by rw [joinExecutor_job, joinExecutor_job]; exact h)
  · have hsub : List.Sublist
        (fetch_page
          (sortBy (jobLe none none)
            (jobs.filter (jobMatches created_user job_type name updated_time_range)))
          page page_size)
        (sortBy (jobLe none none)
          (jobs.filter (jobMatches created_user job_type name updated_time_range))) :=
      (List.take_sublist _ _).trans (List.drop_sublist _ _)
    exact (hs2.sublist hsub).map _
      (fun a b h => by rw [joinExecutor_job, joinExecutor_job]; exact h)

/-- C8: delete_job errors and leaves the job table untouched whenever some
execution-history row carries the eid, and otherwise deletes exactly the job
rows with that eid and returns their count. -/
theorem delete_job_spec (jobs : List JobRow) (history : List JobExecHistoryRow)
    (eid : String) :
    ((∃ h ∈ history, h.eid = eid) →
      delete_job jobs history eid =
        (jobs, Except.error "forbidden to delete the executed jobs")) ∧
    ((∀ h ∈ history, h.eid ≠ eid) →
      delete_job jobs history eid =
        (jobs.filter (fun j => j.eid != eid),
         Except.ok (jobs.countP (fun j => j.eid == eid)))) := by
  constructor
  · rintro ⟨h, hmem, heq⟩
    have hsome : (history.find? (fun r => r.eid == eid)).isSome :=
      List.find?_isSome.mpr ⟨h, hmem, by simp [heq]⟩
    obtain ⟨w, hw⟩ := Option.isSome_iff_exists.mp hsome
    simp [delete_job, hw]
  · intro hall
    have hnone : history.find? (fun r => r.eid == eid) = none :=
      List.find?_eq_none.mpr (fun x hx => by simp [hall x hx])
    simp [delete_job, hnone]

/-- Witness for C8: a concrete job with history is refused with the table
intact, and a concrete job without history is deleted with count returned. -/
theorem delete_job_spec_witness :
    ((∃ h ∈ [witHistRow], h.eid = "e3") ∧
      delete_job [witJobRow] [witHistRow] "e3" =
        ([witJobRow], Except.error "forbidden to delete the executed jobs")) ∧
    ((∀ h ∈ ([] : List JobExecHistoryRow), h.eid ≠ "e3") ∧
      delete_job [witJobRow] [] "e3" =
        ([witJobRow].filter (fun j => j.eid != "e3"),
         Except.ok ([witJobRow].countP (fun j => j.eid == "e3")))) :=
  ⟨⟨by decide, (delete_job_spec [witJobRow] [witHistRow] "e3").1 (by decide)⟩,
   ⟨by decide, (delete_job_spec [witJobRow] [] "e3").2 (by decide)⟩⟩

/-- C4: calling query_run_list with any updated-time range makes the query
fail with an unknown-column error: the range's upper bound is written
against job.updated_time, a table the query does not include, so no row list
is ever returned — instead of bounding job_running_status.updated_time on
both sides as intended. -/
theorem query_run_list_time_range_unknown_column
    (statuses : List JobRunningStatusRow) (histories : List JobScheduleHistoryRow)
    (created_user bind_ip schedule_name schedule_type job_type : Option String)
    (lo hi : String) (page page_size : Nat) :
    query_run_list statuses histories created_user bind_ip schedule_name
      schedule_type job_type (some (lo, hi)) page page_size =
      Except.error "unknown column" := by
  have hmem : Cond.and (Cond.gt jrsUpdatedTime lo) (Cond.lt jobUpdatedTime hi) ∈
      runListConds created_user bind_ip schedule_name schedule_type job_type
        (some (lo, hi)) := by
    simp [runListConds]
  have hall : (runListConds created_user bind_ip schedule_name schedule_type
      job_type (some (lo, hi))).all
        (fun c => c.cols.all (fun ref => runListScope.contains ref.table)) = false := by
    have hbad : ∀ a b : String,
        ((Cond.and (Cond.gt jrsUpdatedTime a) (Cond.lt jobUpdatedTime b)).cols.all
          (fun ref => runListScope.contains ref.table)) = false := fun _ _ => rfl
    rw [List.all_eq_false]
    refine ⟨_, hmem, ?_⟩
    intro hcontra
    rw [hbad lo hi] at hcontra
    exact Bool.false_ne_true hcontra
  simp only [query_run_list]
  rw [hall]
  simp

/-! ## PendingRequest lemmas -/

/-- Two filters commute. -/
theorem filter_swap (p q : α → Bool) (l : List α) :
    (l.filter q).filter p = (l.filter p).filter q := by
  rw [List.filter_filter, List.filter_filter]
  exact List.filter_congr (fun a _ => Bool.and_comm _ _)

/-- A Nat cannot both equal and differ from i. -/
theorem beq_and_bne_self (x i : Nat) : ((x == i) && (x != i)) = false := by
  by_cases h : x = i <;> simp [h]

/-- Running is a fold: splitting off the first event. -/
theorem runEvents_cons (s : PendingState) (e : PrEvent) (evts : List PrEvent) :
    runEvents s (e :: evts) = runEvents (s.step e) evts := rfl

/-- Running distributes over concatenation of traces. -/
theorem runEvents_append (s : PendingState) (l1 l2 : List PrEvent) :
    runEvents s (l1 ++ l2) = runEvents (runEvents s l1) l2 :=
  List.foldl_append _ _ _ _

/-- A response whose identifier matches no pending entry leaves the table
unchanged. -/
theorem step_response_not_pending (id : Nat) (s : PendingState)
    (hp : pendingOf id s = []) : s.step (PrEvent.response id) = s := by
  have hany : s.pending.any (fun p => p.1 == id) = false := by
    rw [List.any_eq_false]
    exact fun x hx => List.filter_eq_nil_iff.mp hp x hx
  simp [PendingState.step, hany]

/-- Once no pending entry carries the identifier, a trace free of creates
for it never adds a pending entry nor a resolution for it. -/
theorem runEvents_no_pending (id : Nat) :
    ∀ (evts : List PrEvent) (s : PendingState),
      (∀ e ∈ evts, createsId id e = false) →
      pendingOf id s = [] →
      pendingOf id (runEvents s evts) = [] ∧
      resolvedCount id (runEvents s evts) = resolvedCount id s := by
  intro evts
  induction evts with
  | nil => intro s _ hp; exact ⟨hp, rfl⟩
  | cons e rest ih =>
    intro s hno hp
    have hrest : ∀ e' ∈ rest, createsId id e' = false :=
      fun e' he' => hno e' (List.mem_cons_of_mem _ he')
    have he : createsId id e = false := hno e (List.mem_cons_self _ _)
    have hstep : pendingOf id (s.step e) = [] ∧
        resolvedCount id (s.step e) = resolvedCount id s := by
      cases e with
      | create i d =>
        simp only [createsId] at he
        constructor
        · simp only [pendingOf, PendingState.step, List.filter_cons]
          simp only [he, if_false]
          exact hp
        · rfl
      | response i =>
        by_cases hany : s.pending.any (fun p => p.1 == i) = true
        · have hii : (i == id) = false := by
            rcases List.any_eq_true.mp hany with ⟨p, hpmem, hpi⟩
            by_contra hcontra
            have htrue : (i == id) = true := by
              revert hcontra; cases (i == id) <;> simp
            have hid : i = id := by simpa using htrue
            subst hid
            exact (List.filter_eq_nil_iff.mp hp p hpmem) hpi
          constructor
          · simp only [pendingOf, PendingState.step, hany, if_true]
            rw [List.filter_filter]
            rw [List.filter_eq_nil_iff]
            intro a ha
            have := List.filter_eq_nil_iff.mp hp a ha
            simp only [Bool.and_eq_true, not_and]
            intro hcontra
            exact absurd hcontra this
          · simp only [resolvedCount, PendingState.step, hany, if_true]
            rw [List.countP_cons]
            simp [hii]
        · have hf : s.pending.any (fun p => p.1 == i) = false := by
            revert hany; cases (s.pending.any (fun p => p.1 == i)) <;> simp
          have hnostep : s.step (PrEvent.response i) = s := by
            simp [PendingState.step, hf]
          rw [hnostep]
          exact ⟨hp, rfl⟩
      | tick now =>
        constructor
        · simp only [pendingOf, PendingState.step]
          rw [List.filter_filter, List.filter_eq_nil_iff]
          intro a ha
          have := List.filter_eq_nil_iff.mp hp a ha
          simp only [Bool.and_eq_true, not_and]
          intro hcontra
          exact absurd hcontra this
        · simp only [resolvedCount, PendingState.step]
          rw [List.countP_append, List.countP_map]
          have hzero : (s.pending.filter (fun p => decide (p.2 ≤ now))).countP
              ((fun q => q.1 == id) ∘ (fun p => (p.1, Resolution.timeoutErr))) = 0 := by
            rw [List.countP_eq_zero]
            intro a ha
            have := List.filter_eq_nil_iff.mp hp a (List.mem_of_mem_filter ha)
            simpa using this
          rw [hzero]
          exact Nat.zero_add _
    have hmain := ih (s.step e) hrest hstep.1
    rw [runEvents_cons]
    exact ⟨hmain.1, hmain.2.trans hstep.2⟩

/-- While the request (id, d) is the unique pending entry for id, a trace
free of creates for id either leaves it pending untouched — in which case no
event of the trace fired it — or resolves it exactly once. -/
theorem runEvents_pending (id d : Nat) :
    ∀ (evts : List PrEvent) (s : PendingState),
      (∀ e ∈ evts, createsId id e = false) →
      pendingOf id s = [(id, d)] →
      resolvedCount id s = 0 →
      (pendingOf id (runEvents s evts) = [(id, d)] ∧
       resolvedCount id (runEvents s evts) = 0 ∧
       ∀ e ∈ evts, firesId id d e = false) ∨
      (pendingOf id (runEvents s evts) = [] ∧
       resolvedCount id (runEvents s evts) = 1) := by
  intro evts
  induction evts with
  | nil =>
    intro s _ hp hr
    exact Or.inl ⟨hp, hr, by simp⟩
  | cons e rest ih =>
    intro s hno hp hr
    have hrest : ∀ e' ∈ rest, createsId id e' = false :=
      fun e' he' => hno e' (List.mem_cons_of_mem _ he')
    have he := hno e (List.mem_cons_self _ _)
    have hp' : List.filter (fun p => p.1 == id) s.pending = [(id, d)] := hp
    rw [runEvents_cons]
    cases e with
    | create i d2 =>
      simp only [createsId] at he
      have hp2 : pendingOf id (s.step (PrEvent.create i d2)) = [(id, d)] := by
        simp only [pendingOf, PendingState.step, List.filter_cons]
        simp only [he, if_false]
        exact hp
      have hr2 : resolvedCount id (s.step (PrEvent.create i d2)) = 0 := hr
      rcases ih _ hrest hp2 hr2 with hleft | hright
      · refine Or.inl ⟨hleft.1, hleft.2.1, ?_⟩
        intro e' he'
        rcases List.mem_cons.mp he' with h1 | h1
        · rw [h1]; rfl
        · exact hleft.2.2 e' h1
      · exact Or.inr hright
    | response i =>
      by_cases hii : i = id
      · subst hii
        have hmem : (i, d) ∈ s.pending := by
          have hm : (i, d) ∈ pendingOf i s := by
            rw [hp]; exact List.mem_singleton.mpr rfl
          exact List.mem_of_mem_filter hm
        have hany : s.pending.any (fun p => p.1 == i) = true :=
          List.any_eq_true.mpr ⟨(i, d), hmem, by simp⟩
        have hp2 : pendingOf i (s.step (PrEvent.response i)) = [] := by
          simp only [pendingOf, PendingState.step, hany, if_true]
          rw [List.filter_filter, List.filter_eq_nil_iff]
          intro a _
          by_cases h : a.1 = i <;> simp [h]
        have hr2 : resolvedCount i (s.step (PrEvent.response i)) = 1 := by
          simp only [resolvedCount] at hr
          simp only [resolvedCount, PendingState.step, hany, if_true]
          rw [List.countP_cons]
          simp [hr]
        have hA := runEvents_no_pending i rest _ hrest hp2
        exact Or.inr ⟨hA.1, hA.2.trans hr2⟩
      · by_cases hany : s.pending.any (fun p => p.1 == i) = true
        · have hp2 : pendingOf id (s.step (PrEvent.response i)) = [(id, d)] := by
            simp only [pendingOf, PendingState.step, hany, if_true]
            rw [List.filter_filter]
            have hpoint : ∀ a ∈ s.pending,
                ((a.1 == id) && (a.1 != i)) = (a.1 == id) := by
              intro a _
              by_cases h : a.1 = id
              · have hne : id ≠ i := fun hh => hii hh.symm
                simp [h, hne]
              · simp [h]
            rw [List.filter_congr hpoint]
            exact hp
          have hr2 : resolvedCount id (s.step (PrEvent.response i)) = 0 := by
            simp only [resolvedCount] at hr
            simp only [resolvedCount, PendingState.step, hany, if_true]
            rw [List.countP_cons]
            simp [hr, hii]
          rcases ih _ hrest hp2 hr2 with hleft | hright
          · refine Or.inl ⟨hleft.1, hleft.2.1, ?_⟩
            intro e' he'
            rcases List.mem_cons.mp he' with h1 | h1
            · rw [h1]; simp [firesId, hii]
            · exact hleft.2.2 e' h1
          · exact Or.inr hright
        · have hf : s.pending.any (fun p => p.1 == i) = false := by
            revert hany; cases (s.pending.any (fun p => p.1 == i)) <;> simp
          have hnostep : s.step (PrEvent.response i) = s := by
            simp [PendingState.step, hf]
          rw [hnostep]
          rcases ih s hrest hp hr with hleft | hright
          · refine Or.inl ⟨hleft.1, hleft.2.1, ?_⟩
            intro e' he'
            rcases List.mem_cons.mp he' with h1 | h1
            · rw [h1]; simp [firesId, hii]
            · exact hleft.2.2 e' h1
          · exact Or.inr hright
    | tick now =>
      by_cases hd : d ≤ now
      · have hnlt : ¬ now < d := Nat.not_lt.mpr hd
        have hp2 : pendingOf id (s.step (PrEvent.tick now)) = [] := by
          simp only [pendingOf, PendingState.step]
          rw [filter_swap, hp']
          simp [List.filter_cons, hnlt]
        have hr2 : resolvedCount id (s.step (PrEvent.tick now)) = 1 := by
          simp only [resolvedCount] at hr
          simp only [resolvedCount, PendingState.step]
          rw [List.countP_append, List.countP_map]
          have hcomp : ((fun (q : Nat × Resolution) => q.1 == id) ∘
              (fun (p : Nat × Nat) => (p.1, Resolution.timeoutErr))) =
              (fun (p : Nat × Nat) => p.1 == id) := rfl
          rw [hcomp, List.countP_eq_length_filter, filter_swap, hp', hr]
          simp [List.filter_cons, hd]
        have hA := runEvents_no_pending id rest _ hrest hp2
        exact Or.inr ⟨hA.1, hA.2.trans hr2⟩
      · have hlt : now < d := Nat.not_le.mp hd
        have hp2 : pendingOf id (s.step (PrEvent.tick now)) = [(id, d)] := by
          simp only [pendingOf, PendingState.step]
          rw [filter_swap, hp']
          simp [List.filter_cons, hlt]
        have hr2 : resolvedCount id (s.step (PrEvent.tick now)) = 0 := by
          simp only [resolvedCount] at hr
          simp only [resolvedCount, PendingState.step]
          rw [List.countP_append, List.countP_map]
          have hcomp : ((fun (q : Nat × Resolution) => q.1 == id) ∘
              (fun (p : Nat × Nat) => (p.1, Resolution.timeoutErr))) =
              (fun (p : Nat × Nat) => p.1 == id) := rfl
          rw [hcomp, List.countP_eq_length_filter, filter_swap, hp', hr]
          simp [List.filter_cons, hd]
        rcases ih _ hrest hp2 hr2 with hleft | hright
        · refine Or.inl ⟨hleft.1, hleft.2.1, ?_⟩
          intro e' he'
          rcases List.mem_cons.mp he' with h1 | h1
          · rw [h1]; simp [firesId, hd]
          · exact hleft.2.2 e' h1
        · exact Or.inr hright

/-- C5: every PendingRequest resolves exactly once. For a trace that creates
the request (id, d) once and later fires it (a matching response or a tick
at or past the deadline), the final table records exactly one resolution for
id and no pending entry for id; and a further response for id arriving after
the run (a duplicate or late response) leaves the table unchanged. -/
theorem pending_request_resolves_once (pre post : List PrEvent) (id d : Nat)
    (hpre : ∀ e ∈ pre, createsId id e = false)
    (hpost : ∀ e ∈ post, createsId id e = false)
    (hfire : ∃ e ∈ post, firesId id d e = true) :
    resolvedCount id (runEvents initPending (pre ++ PrEvent.create id d :: post)) = 1 ∧
    pendingOf id (runEvents initPending (pre ++ PrEvent.create id d :: post)) = [] ∧
    runEvents initPending
        (pre ++ PrEvent.create id d :: (post ++ [PrEvent.response id])) =
      runEvents initPending (pre ++ PrEvent.create id d :: post) := by
  have hinit : pendingOf id initPending = [] := rfl
  have hA := runEvents_no_pending id pre initPending hpre hinit
  have hp1 : List.filter (fun p => p.1 == id) (runEvents initPending pre).pending = [] :=
    hA.1
  have hp2 : pendingOf id
      ((runEvents initPending pre).step (PrEvent.create id d)) = [(id, d)] := by
    simp only [pendingOf, PendingState.step, List.filter_cons]
    rw [if_pos (by simp), hp1]
  have hr2 : resolvedCount id
      ((runEvents initPending pre).step (PrEvent.create id d)) = 0 :=
    hA.2.trans (by simp [resolvedCount, initPending])
  rcases runEvents_pending id d post _ hpost hp2 hr2 with hleft | hright
  · exfalso
    rcases hfire with ⟨e, hemem, hef⟩
    have hff := hleft.2.2 e hemem
    rw [hff] at hef
    exact Bool.false_ne_true hef
  · refine ⟨?_, ?_, ?_⟩
    · rw [runEvents_append, runEvents_cons]
      exact hright.2
    · rw [runEvents_append, runEvents_cons]
      exact hright.1
    · rw [runEvents_append, runEvents_cons, runEvents_append, runEvents_cons,
        runEvents_append, runEvents_cons]
      exact step_response_not_pending id _ hright.1

/-- Witness for C5: a concrete trace — request 3 with deadline 10 is created
after an unrelated request, a response for an unknown id is discarded, the
tick at 20 expires the request, and a late response for 3 has no effect. -/
theorem pending_request_resolves_once_witness :
    (∀ e ∈ [PrEvent.create 7 5], createsId 3 e = false) ∧
    (∀ e ∈ [PrEvent.response 9, PrEvent.tick 20, PrEvent.response 3],
      createsId 3 e = false) ∧
    (∃ e ∈ [PrEvent.response 9, PrEvent.tick 20, PrEvent.response 3],
      firesId 3 10 e = true) ∧
    (resolvedCount 3 (runEvents initPending ([PrEvent.create 7 5] ++
        PrEvent.create 3 10 ::
          [PrEvent.response 9, PrEvent.tick 20, PrEvent.response 3])) = 1 ∧
     pendingOf 3 (runEvents initPending ([PrEvent.create 7 5] ++
        PrEvent.create 3 10 ::
          [PrEvent.response 9, PrEvent.tick 20, PrEvent.response 3])) = [] ∧
     runEvents initPending ([PrEvent.create 7 5] ++ PrEvent.create 3 10 ::
        ([PrEvent.response 9, PrEvent.tick 20, PrEvent.response 3] ++
          [PrEvent.response 3])) =
       runEvents initPending ([PrEvent.create 7 5] ++ PrEvent.create 3 10 ::
        [PrEvent.response 9, PrEvent.tick 20, PrEvent.response 3])) :=
  ⟨by decide, by decide, by decide,
   pending_request_resolves_once [PrEvent.create 7 5]
     [PrEvent.response 9, PrEvent.tick 20, PrEvent.response 3] 3 10
     (by decide) (by decide) (by decide)⟩
